import Mathlib

/-!
Verification of the YOLOv3 post-processing pipeline (box decoding, scale
aggregation and non-maximum suppression) described by the repository's
specification. The repository file `model.py` assembles the network and calls
`getFinalYoloBoxes` and `yolo_nms` (from the repository's `utils` module, not
part of the provided sources) to decode raw scale tensors and suppress
redundant detections; those two functions and the `DetectionPipeline`
orchestration are modelled here from the specification, while `YoloOutput`
and `YoloV3.build` (present in `model.py`) are embedded directly.

The suppression layer is developed over an arbitrary linear ordered field so
that its theorems can be instantiated both at `ℚ` (for exact concrete
scenario computations) and at `ℝ` (where the decoder lives, since the decode
step uses the real exponential and logistic functions).
-/

namespace Yolo

/-- An axis-aligned box with corner coordinates, the geometric record produced
by the decoder and consumed by suppression (spec DecodedBox / Detection). -/
structure Box (α : Type) where
  xMin : α
  yMin : α
  xMax : α
  yMax : α
deriving DecidableEq

/-- A detection candidate handed to the suppressor: a box, a scalar
confidence, and an assigned class id (spec Detection record). -/
structure Det (α : Type) where
  box : Box α
  conf : α
  cls : ℕ
deriving DecidableEq

variable {α : Type} [LinearOrderedField α]

/-- Modelled from the spec: area of an axis-aligned box, used by the IoU
computation of §4.3 (the suppression code `yolo_nms` is not under the
provided sources). -/
def area (b : Box α) : α := (b.xMax - b.xMin) * (b.yMax - b.yMin)

/-- Modelled from the spec, §4.3: intersection-over-union of two axis-aligned
boxes, with intersection `max 0 (min xMax − max xMin) * max 0 (min yMax −
max yMin)`, IoU `inter / (area₁ + area₂ − inter)`, and IoU defined as 0 when
both areas are 0 (the suppression code `yolo_nms` is not under the provided
sources). -/
def iou (b₁ b₂ : Box α) : α :=
  if area b₁ = 0 ∧ area b₂ = 0 then 0
  else
    (max 0 (min b₁.xMax b₂.xMax - max b₁.xMin b₂.xMin) *
      max 0 (min b₁.yMax b₂.yMax - max b₁.yMin b₂.yMin)) /
    (area b₁ + area b₂ -
      max 0 (min b₁.xMax b₂.xMax - max b₁.xMin b₂.xMin) *
        max 0 (min b₁.yMax b₂.yMax - max b₁.yMin b₂.yMin))

/-- Modelled from the spec, §4.3 step 2: the sort order used by the
suppressor, highest confidence first (the suppression code `yolo_nms` is not
under the provided sources). -/
def detGE (a b : Det α) : Prop := b.conf ≤ a.conf

instance : DecidableRel (detGE (α := α)) :=
  fun a b => inferInstanceAs (Decidable (b.conf ≤ a.conf))

instance : IsTotal (Det α) detGE := ⟨fun a b => le_total b.conf a.conf⟩

instance : IsTrans (Det α) detGE := ⟨fun _ _ _ h₁ h₂ => le_trans h₂ h₁⟩

/-- Modelled from the spec, §4.3 step 2: stable sort of detections by
descending confidence, ties broken by input order. -/
def sortDets (l : List (Det α)) : List (Det α) := l.insertionSort detGE

/-- Modelled from the spec, §4.3 steps 3-4: greedy suppression with an
explicit fuel argument (the list length strictly decreases at each step, so
the input length is enough fuel): select the highest-remaining-confidence
box, keep it, drop every unselected box whose IoU with it exceeds the
threshold, repeat. -/
def greedyAux (iouT : α) : ℕ → List (Det α) → List (Det α)
  | _, [] => []
  | 0, _ :: _ => []
  | fuel + 1, d :: rest =>
      d :: greedyAux iouT fuel (rest.filter fun e => decide (iou d.box e.box ≤ iouT))

/-- Modelled from the spec, §4.3 steps 3-4: greedy suppression of a
confidence-sorted candidate list. -/
def greedy (iouT : α) (l : List (Det α)) : List (Det α) := greedyAux iouT l.length l

/-- Modelled from the spec, §4.3 steps 1-4: per-class suppression — filter
this class's candidates at or above the score threshold, sort by descending
confidence, then greedily suppress (a box of one class never suppresses a box
of another). -/
def nmsClass (iouT scoreT : α) (c : ℕ) (l : List (Det α)) : List (Det α) :=
  greedy iouT (sortDets (l.filter fun d => decide (d.cls = c) && decide (scoreT ≤ d.conf)))

/-- Modelled from the spec, §4.3 step 5: full non-maximum suppression — merge
every class's kept list, sort by descending confidence, truncate to the
maximum output count (the suppression code `yolo_nms` is not under the
provided sources). -/
def nms (iouT scoreT : α) (maxDet nC : ℕ) (l : List (Det α)) : List (Det α) :=
  (sortDets ((List.range nC).flatMap fun c => nmsClass iouT scoreT c l)).take maxDet

/-- The class-conditional pairwise IoU relation that the suppressor
guarantees on its output: two surviving detections of the same class overlap
by at most the IoU threshold. -/
def SepRel (iouT : α) (a b : Det α) : Prop := a.cls = b.cls → iou a.box b.box ≤ iouT

/-- Modelled from the spec, §4.1 step 4: the logistic function applied to
objectness and class logits (the decoding code `getFinalYoloBoxes` is not
under the provided sources). -/
noncomputable def sigmoid (z : ℝ) : ℝ := 1 / (1 + Real.exp (-z))

/-- Clamp a coordinate into the unit interval, as §4.1 step 3 requires for
decoded corners. -/
def clamp01 (x : ℝ) : ℝ := max 0 (min 1 x)

/-- Clamp a value into a closed interval; §4.1's failure policy clamps the
raw size logits to [−20, 20] before exponentiating. -/
def clampI (lo hi x : ℝ) : ℝ := max lo (min hi x)

/-- The raw per-anchor regression attributes of one grid cell: center and
size logits, objectness logit, and one logit per class (spec RawScaleTensor
attribute axis). -/
structure RawCell where
  tx : ℝ
  ty : ℝ
  tw : ℝ
  th : ℝ
  obj : ℝ
  classLogits : List ℝ

/-- Read a raw attribute vector (tx, ty, tw, th, objectness, class logits) as
a RawCell, matching the tensor layout of §3. -/
def attrToCell (v : List ℝ) : RawCell :=
  ⟨v.getD 0 0, v.getD 1 0, v.getD 2 0, v.getD 3 0, v.getD 4 0, v.drop 5⟩

/-- A decoded box in normalized coordinates together with its
objectness-weighted confidence, assigned class and per-class score vector
(spec DecodedBox). -/
structure DecodedBox where
  xMin : ℝ
  yMin : ℝ
  xMax : ℝ
  yMax : ℝ
  conf : ℝ
  classId : ℕ
  classScores : List ℝ

/-- Maximum of a list of class scores (0 for an empty list), §4.1 step 6. -/
noncomputable def listMax : List ℝ → ℝ
  | [] => 0
  | [x] => x
  | x :: y :: t => max x (listMax (y :: t))

/-- First index attaining the maximum class score, §4.1 step 6's argmax. -/
noncomputable def listArgmax : List ℝ → ℕ
  | [] => 0
  | [_] => 0
  | x :: y :: t => if listMax (y :: t) ≤ x then 0 else listArgmax (y :: t) + 1

/-- Modelled from the spec, §4.1 steps 1-6 plus its failure policy: decode
one grid cell and one anchor — sigmoid center offsets mapped into the cell,
anchor size scaled by the exponential of the clamped size logits and
normalized by the input dimensions, corners clamped to [0, 1], class scores
gated by objectness, confidence the maximal class score and class id its
argmax (the decoding code `getFinalYoloBoxes` is not under the provided
sources). -/
noncomputable def decodeCell (gridRows gridCols r c : ℕ) (aw ah iw ih : ℝ)
    (cell : RawCell) : DecodedBox where
  xMin := clamp01 ((sigmoid cell.tx + c) / gridCols -
    aw * Real.exp (clampI (-20) 20 cell.tw) / iw / 2)
  yMin := clamp01 ((sigmoid cell.ty + r) / gridRows -
    ah * Real.exp (clampI (-20) 20 cell.th) / ih / 2)
  xMax := clamp01 ((sigmoid cell.tx + c) / gridCols +
    aw * Real.exp (clampI (-20) 20 cell.tw) / iw / 2)
  yMax := clamp01 ((sigmoid cell.ty + r) / gridRows +
    ah * Real.exp (clampI (-20) 20 cell.th) / ih / 2)
  conf := listMax (cell.classLogits.map fun z => sigmoid cell.obj * sigmoid z)
  classId := listArgmax (cell.classLogits.map fun z => sigmoid cell.obj * sigmoid z)
  classScores := cell.classLogits.map fun z => sigmoid cell.obj * sigmoid z

/-- One raw scale tensor (batch dimension dropped: a single image), with its
declared grid and anchor geometry (spec RawScaleTensor). -/
structure RawScale where
  gridRows : ℕ
  gridCols : ℕ
  numAnchors : ℕ
  numClasses : ℕ
  data : List (List (List (List ℝ)))

/-- Modelled from the spec, §4.1 and §4.2: decode a whole scale in raster
order — row-major over grid cells, then anchor index (the decoding code
`getFinalYoloBoxes` is not under the provided sources). -/
noncomputable def decodeScale (iw ih : ℝ) (anchors : List (ℝ × ℝ))
    (s : RawScale) : List DecodedBox :=
  (List.range s.gridRows).flatMap fun r =>
    (List.range s.gridCols).flatMap fun c =>
      (List.range s.numAnchors).map fun a =>
        decodeCell s.gridRows s.gridCols r c (anchors.getD a (0, 0)).1
          (anchors.getD a (0, 0)).2 iw ih
          (attrToCell (((s.data.getD r []).getD c []).getD a []))

/-- Forget the per-class score vector, keeping what the suppressor consumes. -/
def toDet (d : DecodedBox) : Det ℝ := ⟨⟨d.xMin, d.yMin, d.xMax, d.yMax⟩, d.conf, d.classId⟩

/-- Pipeline configuration recognized by §4.4. -/
structure Config where
  scoreThresh : ℝ
  iouThresh : ℝ
  maxDetections : ℕ
  inputWidth : ℝ
  inputHeight : ℝ

/-- Modelled from the spec, §4.2: concatenate the decoded boxes of the three
scales in the fixed order large, medium, small. -/
noncomputable def aggregate (cfg : Config) (anchorsL anchorsM anchorsS : List (ℝ × ℝ))
    (rawL rawM rawS : RawScale) : List DecodedBox :=
  decodeScale cfg.inputWidth cfg.inputHeight anchorsL rawL ++
    decodeScale cfg.inputWidth cfg.inputHeight anchorsM rawM ++
    decodeScale cfg.inputWidth cfg.inputHeight anchorsS rawS

/-- Modelled from the spec, §7: the MalformedInput validity check — the raw
tensor dimensions must agree with the declared grid, anchor and class
counts. -/
def checkDims (s : RawScale) : Bool :=
  (s.data.length == s.gridRows) &&
    s.data.all fun row => (row.length == s.gridCols) &&
      row.all fun cell => (cell.length == s.numAnchors) &&
        cell.all fun v => v.length == 5 + s.numClasses

/-- Modelled from the spec, §4.4 and §7: the full pipeline run — fail fast
with a descriptive MalformedInput error when any raw tensor is inconsistent
with its declared geometry, otherwise decode all three scales, aggregate and
suppress (the `DetectionPipeline` orchestration around `model.py`'s
`YoloV3.call` is not fully under the provided sources). -/
noncomputable def run (cfg : Config) (anchorsL anchorsM anchorsS : List (ℝ × ℝ))
    (rawL rawM rawS : RawScale) : Except String (List (Det ℝ)) :=
  if checkDims rawL && checkDims rawM && checkDims rawS then
    .ok (nms cfg.iouThresh cfg.scoreThresh cfg.maxDetections rawL.numClasses
      ((aggregate cfg anchorsL anchorsM anchorsS rawL rawM rawS).map toDet))
  else
    .error "MalformedInput: raw tensor dimensions inconsistent with declared anchor/grid sizes"

/-- From `model.py` line 227: the detection layer of `YoloOutput` is a
`DarknetConv` with `anchors * (classes + 5)` filters, so it produces exactly
that many channels per grid cell. -/
def yoloDetectionsFilters (anchors classes : ℕ) : ℕ := anchors * (classes + 5)

/-- From `model.py` line 234: `tf.reshape(x, (-1, h, w, anchors, classes + 5))`
splits each grid cell's flat channel vector into `anchors` consecutive
per-anchor attribute vectors of `classes + 5` components. -/
def yoloOutputReshape {β : Type} (anchors classes : ℕ) (v : List β) : List (List β) :=
  (List.range anchors).map fun a => (v.drop (a * (classes + 5))).take (classes + 5)

/-- From `model.py` lines 263, 267 and 271: `YoloV3.build` instantiates the
scale-`i` `YoloOutput` with `len(masks[i])` anchors, so its detection conv
has `len(masks[i]) * (classes + 5)` channels. -/
def yoloV3OutputChannels (masks : List (List ℕ)) (classes i : ℕ) : ℕ :=
  yoloDetectionsFilters (masks.getD i []).length classes

/-- Scenario input of §8: a box of confidence 0.9, away from `boxHigh`. -/
def boxLow : Box ℚ := ⟨0, 0, 2/5, 2/5⟩

/-- Scenario input of §8: a box of confidence 0.95, away from `boxLow`. -/
def boxHigh : Box ℚ := ⟨1/2, 1/2, 9/10, 9/10⟩

/-- Scenario detection with confidence 0.9 (non-overlapping pair). -/
def detLow : Det ℚ := ⟨boxLow, 9/10, 0⟩

/-- Scenario detection with confidence 0.95 (non-overlapping pair). -/
def detHigh : Det ℚ := ⟨boxHigh, 95/100, 0⟩

/-- Scenario input of §8: the unit box. -/
def boxUnit : Box ℚ := ⟨0, 0, 1, 1⟩

/-- Scenario input of §8: the unit box shortened to height 0.99, so that its
IoU with `boxUnit` is exactly 0.99. -/
def boxTall : Box ℚ := ⟨0, 0, 1, 99/100⟩

/-- Scenario detection: class 0, confidence 0.9, on `boxUnit`. -/
def detClassA : Det ℚ := ⟨boxUnit, 9/10, 0⟩

/-- Scenario detection: class 1, confidence 0.8, on `boxTall`. -/
def detClassB : Det ℚ := ⟨boxTall, 8/10, 1⟩

/-- Scenario raw cell of §8: all logits zero, one class. -/
def centeredCell : RawCell := ⟨0, 0, 0, 0, 0, [0]⟩

/-- A raw cell whose width logit 21 exceeds the clamp range of §4.1's
failure policy. -/
def overflowCell : RawCell := ⟨0, 0, 21, 0, 0, [0]⟩

/-- A raw scale whose declared grid geometry disagrees with its data (the
data holds no rows but one row is declared). -/
noncomputable def badScale : RawScale := ⟨1, 1, 1, 1, []⟩

/-- A raw scale of consistent dimensions: a 1×1 grid, one anchor, one class,
six attributes per anchor. -/
noncomputable def tinyScale : RawScale := ⟨1, 1, 1, 1, [[[[0, 0, 0, 0, 0, 0]]]]⟩

/-- A sample configuration for concrete pipeline runs. -/
noncomputable def sampleConfig : Config := ⟨1/2, 1/2, 100, 416, 416⟩

theorem iou_comm (b₁ b₂ : Box α) : iou b₁ b₂ = iou b₂ b₁ := by
  unfold iou
  rw [min_comm b₁.xMax, max_comm b₁.xMin, min_comm b₁.yMax, max_comm b₁.yMin,
    add_comm (area b₁)]
  simp only [and_comm]

theorem interW_le_left (b₁ b₂ : Box α) :
    min b₁.xMax b₂.xMax - max b₁.xMin b₂.xMin ≤ b₁.xMax - b₁.xMin :=
  sub_le_sub (min_le_left _ _) (le_max_left _ _)

theorem interW_le_right (b₁ b₂ : Box α) :
    min b₁.xMax b₂.xMax - max b₁.xMin b₂.xMin ≤ b₂.xMax - b₂.xMin :=
  sub_le_sub (min_le_right _ _) (le_max_right _ _)

theorem interH_le_left (b₁ b₂ : Box α) :
    min b₁.yMax b₂.yMax - max b₁.yMin b₂.yMin ≤ b₁.yMax - b₁.yMin :=
  sub_le_sub (min_le_left _ _) (le_max_left _ _)

theorem interH_le_right (b₁ b₂ : Box α) :
    min b₁.yMax b₂.yMax - max b₁.yMin b₂.yMin ≤ b₂.yMax - b₂.yMin :=
  sub_le_sub (min_le_right _ _) (le_max_right _ _)

/-- The intersection term of the IoU formula never exceeds either box's area,
as long as it is positive. -/
theorem inter_le_areas (b₁ b₂ : Box α)
    (hpos : 0 < max 0 (min b₁.xMax b₂.xMax - max b₁.xMin b₂.xMin) *
      max 0 (min b₁.yMax b₂.yMax - max b₁.yMin b₂.yMin)) :
    max 0 (min b₁.xMax b₂.xMax - max b₁.xMin b₂.xMin) *
      max 0 (min b₁.yMax b₂.yMax - max b₁.yMin b₂.yMin) ≤ area b₁ ∧
    max 0 (min b₁.xMax b₂.xMax - max b₁.xMin b₂.xMin) *
      max 0 (min b₁.yMax b₂.yMax - max b₁.yMin b₂.yMin) ≤ area b₂ := by
  set ox := max 0 (min b₁.xMax b₂.xMax - max b₁.xMin b₂.xMin) with hox
  set oy := max 0 (min b₁.yMax b₂.yMax - max b₁.yMin b₂.yMin) with hoy
  have hox0 : 0 ≤ ox := le_max_left _ _
  have hoy0 : 0 ≤ oy := le_max_left _ _
  have hoxpos : 0 < ox := by
    rcases hox0.lt_or_eq with h | h
    · exact h
    · exfalso; rw [← h] at hpos; simp at hpos
  have hoypos : 0 < oy := by
    rcases hoy0.lt_or_eq with h | h
    · exact h
    · exfalso; rw [← h] at hpos; simp at hpos
  have hoxraw : ox = min b₁.xMax b₂.xMax - max b₁.xMin b₂.xMin := by
    rw [hox, max_eq_right]
    by_contra hc
    push_neg at hc
    rw [hox, max_eq_left hc.le] at hoxpos
    exact lt_irrefl 0 hoxpos
  have hoyraw : oy = min b₁.yMax b₂.yMax - max b₁.yMin b₂.yMin := by
    rw [hoy, max_eq_right]
    by_contra hc
    push_neg at hc
    rw [hoy, max_eq_left hc.le] at hoypos
    exact lt_irrefl 0 hoypos
  constructor
  · have h1 : ox ≤ b₁.xMax - b₁.xMin := hoxraw ▸ interW_le_left b₁ b₂
    have h2 : oy ≤ b₁.yMax - b₁.yMin := hoyraw ▸ interH_le_left b₁ b₂
    exact mul_le_mul h1 h2 hoy0 (hoxpos.trans_le h1).le
  · have h1 : ox ≤ b₂.xMax - b₂.xMin := hoxraw ▸ interW_le_right b₁ b₂
    have h2 : oy ≤ b₂.yMax - b₂.yMin := hoyraw ▸ interH_le_right b₁ b₂
    exact mul_le_mul h1 h2 hoy0 (hoxpos.trans_le h1).le

theorem iou_nonneg (b₁ b₂ : Box α) : 0 ≤ iou b₁ b₂ := by
  unfold iou
  split
  · exact le_refl 0
  · set ox := max 0 (min b₁.xMax b₂.xMax - max b₁.xMin b₂.xMin)
    set oy := max 0 (min b₁.yMax b₂.yMax - max b₁.yMin b₂.yMin)
    have hox0 : 0 ≤ ox := le_max_left _ _
    have hoy0 : 0 ≤ oy := le_max_left _ _
    have hinter : 0 ≤ ox * oy := mul_nonneg hox0 hoy0
    rcases hinter.lt_or_eq with hpos | hzero
    · have hle := inter_le_areas b₁ b₂ hpos
      have hunion : 0 < area b₁ + area b₂ - ox * oy :=
        lt_of_lt_of_le hpos (by linarith [hle.1, hle.2])
      exact (div_nonneg hinter hunion.le)
    · rw [← hzero, zero_div]

theorem iou_le_one (b₁ b₂ : Box α) : iou b₁ b₂ ≤ 1 := by
  unfold iou
  split
  · exact zero_le_one
  · set ox := max 0 (min b₁.xMax b₂.xMax - max b₁.xMin b₂.xMin)
    set oy := max 0 (min b₁.yMax b₂.yMax - max b₁.yMin b₂.yMin)
    have hox0 : 0 ≤ ox := le_max_left _ _
    have hoy0 : 0 ≤ oy := le_max_left _ _
    have hinter : 0 ≤ ox * oy := mul_nonneg hox0 hoy0
    rcases hinter.lt_or_eq with hpos | hzero
    · have hle := inter_le_areas b₁ b₂ hpos
      have hunion : 0 < area b₁ + area b₂ - ox * oy :=
        lt_of_lt_of_le hpos (by linarith [hle.1, hle.2])
      rw [div_le_one hunion]
      linarith [hle.2]
    · rw [← hzero, zero_div]; exact zero_le_one

theorem iou_self (b : Box α) (hx : b.xMin ≤ b.xMax) (hy : b.yMin ≤ b.yMax)
    (hpos : 0 < area b) : iou b b = 1 := by
  unfold iou
  have hxw : min b.xMax b.xMax - max b.xMin b.xMin = b.xMax - b.xMin := by
    rw [min_self, max_self]
  have hyw : min b.yMax b.yMax - max b.yMin b.yMin = b.yMax - b.yMin := by
    rw [min_self, max_self]
  rw [hxw, hyw, max_eq_right (sub_nonneg.mpr hx), max_eq_right (sub_nonneg.mpr hy)]
  have harea : (b.xMax - b.xMin) * (b.yMax - b.yMin) = area b := rfl
  rw [harea]
  split
  · rename_i h
    exact absurd h.1 hpos.ne'
  · rw [show area b + area b - area b = area b by ring, div_self hpos.ne']

theorem iou_zero_of_areas_zero (b₁ b₂ : Box α) (h₁ : area b₁ = 0)
    (h₂ : area b₂ = 0) : iou b₁ b₂ = 0 := by
  unfold iou
  rw [if_pos ⟨h₁, h₂⟩]

theorem greedyAux_congr (iouT : α) :
    ∀ (f₁ f₂ : ℕ) (l : List (Det α)), l.length ≤ f₁ → l.length ≤ f₂ →
      greedyAux iouT f₁ l = greedyAux iouT f₂ l := by
  intro f₁
  induction f₁ with
  | zero =>
    intro f₂ l h₁ _
    cases l with
    | nil => cases f₂ <;> rfl
    | cons d rest => simp at h₁
  | succ f ih =>
    intro f₂ l h₁ h₂
    cases l with
    | nil => cases f₂ <;> rfl
    | cons d rest =>
      cases f₂ with
      | zero => simp at h₂
      | succ f' =>
        simp only [greedyAux, List.cons.injEq, true_and]
        exact ih f' _
          (le_trans (List.length_filter_le _ _) (Nat.lt_succ_iff.mp h₁))
          (le_trans (List.length_filter_le _ _) (Nat.lt_succ_iff.mp h₂))

theorem greedy_nil (iouT : α) : greedy iouT ([] : List (Det α)) = [] := rfl

theorem greedy_cons (iouT : α) (d : Det α) (rest : List (Det α)) :
    greedy iouT (d :: rest) =
      d :: greedy iouT (rest.filter fun e => decide (iou d.box e.box ≤ iouT)) := by
  unfold greedy
  simp only [List.length_cons, greedyAux, List.cons.injEq, true_and]
  exact greedyAux_congr iouT _ _ _ (List.length_filter_le _ _) le_rfl

theorem greedyAux_sublist (iouT : α) :
    ∀ (fuel : ℕ) (l : List (Det α)), (greedyAux iouT fuel l).Sublist l := by
  intro fuel
  induction fuel with
  | zero =>
    intro l
    cases l <;> simp [greedyAux]
  | succ f ih =>
    intro l
    cases l with
    | nil => simp [greedyAux]
    | cons d rest =>
      simp only [greedyAux]
      exact (ih _).trans (List.filter_sublist rest) |>.cons₂ d

theorem greedy_sublist (iouT : α) (l : List (Det α)) :
    (greedy iouT l).Sublist l := greedyAux_sublist iouT l.length l

theorem greedyAux_pairwise (iouT : α) :
    ∀ (fuel : ℕ) (l : List (Det α)),
      (greedyAux iouT fuel l).Pairwise fun a b => iou a.box b.box ≤ iouT := by
  intro fuel
  induction fuel with
  | zero =>
    intro l
    cases l <;> simp [greedyAux]
  | succ f ih =>
    intro l
    cases l with
    | nil => simp [greedyAux]
    | cons d rest =>
      simp only [greedyAux]
      refine List.Pairwise.cons ?_ (ih _)
      intro e he
      have hmem := (greedyAux_sublist iouT f _).subset he
      have := (List.mem_filter.mp hmem).2
      exact of_decide_eq_true this

theorem greedy_pairwise (iouT : α) (l : List (Det α)) :
    (greedy iouT l).Pairwise fun a b => iou a.box b.box ≤ iouT :=
  greedyAux_pairwise iouT l.length l

theorem greedy_of_pairwise (iouT : α) :
    ∀ l : List (Det α), (l.Pairwise fun a b => iou a.box b.box ≤ iouT) →
      greedy iouT l = l := by
  intro l
  induction l with
  | nil => intro _; rfl
  | cons d rest ih =>
    intro h
    rw [greedy_cons]
    have hfilter : (rest.filter fun e => decide (iou d.box e.box ≤ iouT)) = rest := by
      apply List.filter_eq_self.mpr
      intro e he
      exact decide_eq_true ((List.pairwise_cons.mp h).1 e he)
    rw [hfilter, ih (List.pairwise_cons.mp h).2]

theorem sortDets_sorted (l : List (Det α)) : (sortDets l).Sorted detGE :=
  List.sorted_insertionSort detGE l

theorem sortDets_perm (l : List (Det α)) : (sortDets l).Perm l :=
  List.perm_insertionSort detGE l

theorem sortDets_of_sorted {l : List (Det α)} (h : l.Sorted detGE) :
    sortDets l = l := h.insertionSort_eq

theorem nms_sorted (iouT scoreT : α) (maxDet nC : ℕ) (l : List (Det α)) :
    (nms iouT scoreT maxDet nC l).Sorted detGE :=
  List.Pairwise.sublist (List.take_sublist _ _) (sortDets_sorted _)

theorem nms_length_le (iouT scoreT : α) (maxDet nC : ℕ) (l : List (Det α)) :
    (nms iouT scoreT maxDet nC l).length ≤ maxDet := by
  unfold nms
  exact List.length_take_le _ _

theorem mem_nmsClass {iouT scoreT : α} {c : ℕ} {l : List (Det α)} {d : Det α}
    (h : d ∈ nmsClass iouT scoreT c l) :
    d.cls = c ∧ scoreT ≤ d.conf ∧ d ∈ l := by
  have h₁ := (greedy_sublist iouT _).subset h
  have h₂ := (sortDets_perm _).subset h₁
  have h₃ := List.mem_filter.mp h₂
  have h₄ := h₃.2
  rw [Bool.and_eq_true, decide_eq_true_eq, decide_eq_true_eq] at h₄
  exact ⟨h₄.1, h₄.2, h₃.1⟩

theorem mem_nms {iouT scoreT : α} {maxDet nC : ℕ} {l : List (Det α)} {d : Det α}
    (h : d ∈ nms iouT scoreT maxDet nC l) :
    d.cls < nC ∧ scoreT ≤ d.conf ∧ d ∈ l := by
  have h₁ := List.mem_of_mem_take h
  have h₂ := (sortDets_perm _).subset h₁
  rcases List.mem_flatMap.mp h₂ with ⟨c, hc, hd⟩
  rcases mem_nmsClass hd with ⟨hcls, hconf, hmem⟩
  exact ⟨hcls ▸ List.mem_range.mp hc, hconf, hmem⟩

theorem sepRel_symm (iouT : α) : ∀ {a b : Det α}, SepRel iouT a b → SepRel iouT b a := by
  intro a b h hc
  rw [iou_comm]
  exact h hc.symm

theorem nmsClass_pairwise (iouT scoreT : α) (c : ℕ) (l : List (Det α)) :
    (nmsClass iouT scoreT c l).Pairwise fun a b => iou a.box b.box ≤ iouT :=
  greedy_pairwise iouT _

theorem flatMap_nmsClass_pairwise (iouT scoreT : α) (l : List (Det α)) :
    ∀ cs : List ℕ, cs.Pairwise (· ≠ ·) →
      (cs.flatMap fun c => nmsClass iouT scoreT c l).Pairwise (SepRel iouT) := by
  intro cs
  induction cs with
  | nil => intro _; simp
  | cons c cs ih =>
    intro h
    rw [List.flatMap_cons, List.pairwise_append]
    refine ⟨?_, ih (List.pairwise_cons.mp h).2, ?_⟩
    · exact (nmsClass_pairwise iouT scoreT c l).imp fun hab => fun _ => hab
    · intro a ha b hb hab
      rcases List.mem_flatMap.mp hb with ⟨c', hc', hb'⟩
      have hac : a.cls = c := (mem_nmsClass ha).1
      have hbc : b.cls = c' := (mem_nmsClass hb').1
      have : c ≠ c' := (List.pairwise_cons.mp h).1 c' hc'
      exact absurd (hac ▸ hbc ▸ hab) this

theorem nms_pairwise (iouT scoreT : α) (maxDet nC : ℕ) (l : List (Det α)) :
    (nms iouT scoreT maxDet nC l).Pairwise (SepRel iouT) := by
  have h₁ := flatMap_nmsClass_pairwise iouT scoreT l (List.range nC)
    (List.pairwise_lt_range nC |>.imp fun h => Nat.ne_of_lt h)
  have h₂ := ((sortDets_perm _).pairwise_iff (sepRel_symm iouT)).mpr h₁
  exact List.Pairwise.sublist (List.take_sublist _ _) h₂

theorem sum_map_ite_eq_zero {β : Type} [AddCommMonoid β] (k : ℕ) (x : β)
    (L : List ℕ) (hk : ∀ c ∈ L, k ≠ c) :
    (L.map fun c => if k = c then x else 0).sum = 0 := by
  apply List.sum_eq_zero
  intro y hy
  rcases List.mem_map.mp hy with ⟨c, hc, hcy⟩
  rw [if_neg (hk c hc)] at hcy
  exact hcy.symm

theorem sum_map_ite_range {β : Type} [AddCommMonoid β] (x : β) :
    ∀ (n k : ℕ), k < n → ((List.range n).map fun c => if k = c then x else 0).sum = x := by
  intro n
  induction n with
  | zero => intro k hk; simp at hk
  | succ m ih =>
    intro k hk
    rw [List.range_succ, List.map_append, List.sum_append]
    rcases Nat.lt_succ_iff_lt_or_eq.mp hk with h | h
    · rw [ih k h]
      simp [Nat.ne_of_lt h]
    · subst h
      rw [sum_map_ite_eq_zero k x (List.range k)
        (fun c hc => (Nat.ne_of_lt (List.mem_range.mp hc)).symm)]
      simp

omit [LinearOrderedField α] in
theorem count_filter_ite [DecidableEq α] (a : Det α) (p : Det α → Bool)
    (l : List (Det α)) :
    (l.filter p).count a = if p a = true then l.count a else 0 := by
  by_cases h : p a = true
  · rw [if_pos h, List.count_filter h]
  · rw [if_neg h]
    apply List.count_eq_zero.mpr
    intro hmem
    exact h (List.mem_filter.mp hmem).2

omit [LinearOrderedField α] in
/-- Splitting a list of detections into its per-class fibres and
concatenating the fibres in class order is a permutation of the list, as long
as every class id is in range. -/
theorem partition_perm [DecidableEq α] (l : List (Det α)) (n : ℕ)
    (h : ∀ d ∈ l, d.cls < n) :
    ((List.range n).flatMap fun c => l.filter fun d => decide (d.cls = c)).Perm l := by
  apply List.perm_iff_count.mpr
  intro a
  have hrw : ((List.range n).flatMap fun c => l.filter fun d => decide (d.cls = c)).count a
      = ((List.range n).map fun c => if a.cls = c then l.count a else 0).sum := by
    simp only [List.flatMap_def, List.count_flatten, List.map_map, Function.comp_def,
      count_filter_ite, decide_eq_true_eq]
  rw [hrw]
  by_cases ha : a ∈ l
  · exact sum_map_ite_range (l.count a) n a.cls (h a ha)
  · have hz : l.count a = 0 := List.count_eq_zero.mpr ha
    rw [hz]
    apply List.sum_eq_zero
    intro y hy
    rcases List.mem_map.mp hy with ⟨c, _, hcy⟩
    rw [← hcy]
    split <;> rfl

/-- Running the per-class suppression step on the suppressor's own output
just selects that class's detections: they are already sorted, already above
the score threshold, and already pairwise separated, so nothing is dropped or
reordered. -/
theorem nmsClass_nms (iouT scoreT : α) (maxDet nC c : ℕ) (l : List (Det α)) :
    nmsClass iouT scoreT c (nms iouT scoreT maxDet nC l) =
      (nms iouT scoreT maxDet nC l).filter fun d => decide (d.cls = c) := by
  set out := nms iouT scoreT maxDet nC l with hout
  have hfil : (out.filter fun d => decide (d.cls = c) && decide (scoreT ≤ d.conf)) =
      out.filter fun d => decide (d.cls = c) := by
    apply List.filter_congr
    intro d hd
    have : scoreT ≤ d.conf := (mem_nms (hout ▸ hd)).2.1
    rw [decide_eq_true this, Bool.and_true]
  have hsorted : (out.filter fun d => decide (d.cls = c)).Sorted detGE :=
    (nms_sorted iouT scoreT maxDet nC l).filter _
  have hpw : (out.filter fun d => decide (d.cls = c)).Pairwise
      fun a b => iou a.box b.box ≤ iouT := by
    have h₁ : (out.filter fun d => decide (d.cls = c)).Pairwise (SepRel iouT) :=
      List.Pairwise.sublist (List.filter_sublist out) (nms_pairwise iouT scoreT maxDet nC l)
    refine List.Pairwise.imp_of_mem ?_ h₁
    intro a b ha hb hab
    have hac : a.cls = c := by
      have := (List.mem_filter.mp ha).2
      exact of_decide_eq_true this
    have hbc : b.cls = c := by
      have := (List.mem_filter.mp hb).2
      exact of_decide_eq_true this
    exact hab (hac.trans hbc.symm)
  unfold nmsClass
  rw [hfil, sortDets_of_sorted hsorted, greedy_of_pairwise iouT _ hpw]

/-- Non-maximum suppression is idempotent up to permutation: applied to its
own output with the same thresholds and cap it returns the same set of
detections. -/
theorem nms_idem_perm [DecidableEq α] (iouT scoreT : α) (maxDet nC : ℕ)
    (l : List (Det α)) :
    (nms iouT scoreT maxDet nC (nms iouT scoreT maxDet nC l)).Perm
      (nms iouT scoreT maxDet nC l) := by
  set out := nms iouT scoreT maxDet nC l with hout
  have hfun : (fun c => nmsClass iouT scoreT c out) =
      fun c => out.filter fun d => decide (d.cls = c) := by
    funext c
    exact hout ▸ nmsClass_nms iouT scoreT maxDet nC c l
  have hperm : ((List.range nC).flatMap fun c => nmsClass iouT scoreT c out).Perm out := by
    rw [hfun]
    exact partition_perm out nC fun d hd => (mem_nms (hout ▸ hd)).1
  have hlen : (sortDets ((List.range nC).flatMap fun c => nmsClass iouT scoreT c out)).length
      ≤ maxDet := by
    rw [((sortDets_perm _).trans hperm).length_eq]
    exact hout ▸ nms_length_le iouT scoreT maxDet nC l
  show (sortDets ((List.range nC).flatMap fun c => nmsClass iouT scoreT c out)).take
      maxDet |>.Perm out
  rw [List.take_of_length_le hlen]
  exact (sortDets_perm _).trans hperm

/-- Per-class suppression is blind to boxes of other classes: restricting the
input to the boxes of the processed class first changes nothing. -/
theorem nmsClass_filter_self (iouT scoreT : α) (c : ℕ) (l : List (Det α)) :
    nmsClass iouT scoreT c l =
      nmsClass iouT scoreT c (l.filter fun d => decide (d.cls = c)) := by
  unfold nmsClass
  rw [List.filter_filter]
  have : (l.filter fun d => decide (d.cls = c) && decide (scoreT ≤ d.conf)) =
      l.filter fun d => (decide (d.cls = c) && decide (scoreT ≤ d.conf)) && decide (d.cls = c) := by
    apply List.filter_congr
    intro d _
    cases h : decide (d.cls = c) <;> simp [h]
  rw [this]

theorem sigmoid_zero : sigmoid 0 = 1 / 2 := by
  unfold sigmoid
  rw [neg_zero, Real.exp_zero]
  norm_num

theorem sigmoid_pos (z : ℝ) : 0 < sigmoid z := by
  unfold sigmoid
  positivity

theorem sigmoid_lt_one (z : ℝ) : sigmoid z < 1 := by
  unfold sigmoid
  rw [div_lt_one (by positivity)]
  linarith [Real.exp_pos (-z)]

theorem clamp01_nonneg (x : ℝ) : 0 ≤ clamp01 x := le_max_left 0 _

theorem clamp01_le_one (x : ℝ) : clamp01 x ≤ 1 :=
  max_le zero_le_one (min_le_left 1 x)

theorem clamp01_mono {x y : ℝ} (h : x ≤ y) : clamp01 x ≤ clamp01 y :=
  max_le_max le_rfl (min_le_min le_rfl h)

theorem clamp01_of_mem {x : ℝ} (h0 : 0 ≤ x) (h1 : x ≤ 1) : clamp01 x = x := by
  unfold clamp01
  rw [min_eq_right h1, max_eq_right h0]

theorem clampI_le {lo hi : ℝ} (h : lo ≤ hi) (x : ℝ) : clampI lo hi x ≤ hi :=
  max_le h (min_le_left hi x)

theorem le_clampI (lo hi x : ℝ) : lo ≤ clampI lo hi x := le_max_left lo _

theorem clampI_of_mem {lo hi x : ℝ} (h0 : lo ≤ x) (h1 : x ≤ hi) :
    clampI lo hi x = x := by
  unfold clampI
  rw [min_eq_right h1, max_eq_right h0]

theorem listMax_ge : ∀ (l : List ℝ), ∀ x ∈ l, x ≤ listMax l
  | [] => by simp
  | [x] => by simp [listMax]
  | x :: y :: t => by
    intro z hz
    rcases List.mem_cons.mp hz with h | h
    · subst h
      exact le_max_left _ _
    · exact (listMax_ge (y :: t) z h).trans (le_max_right _ _)

theorem listMax_mem : ∀ (l : List ℝ), l ≠ [] → listMax l ∈ l
  | [], h => absurd rfl h
  | [x], _ => by simp [listMax]
  | x :: y :: t, _ => by
    show max x (listMax (y :: t)) ∈ x :: y :: t
    rcases le_total (listMax (y :: t)) x with h | h
    · rw [max_eq_left h]
      exact List.mem_cons_self x _
    · rw [max_eq_right h]
      exact List.mem_cons_of_mem x (listMax_mem (y :: t) (by simp))

theorem getD_listArgmax : ∀ (l : List ℝ), l ≠ [] → l.getD (listArgmax l) 0 = listMax l
  | [], h => absurd rfl h
  | [x], _ => by simp [listMax, listArgmax]
  | x :: y :: t, _ => by
    show (x :: y :: t).getD (listArgmax (x :: y :: t)) 0 = max x (listMax (y :: t))
    unfold listArgmax
    split
    · rename_i h
      rw [max_eq_left h]
      rfl
    · rename_i h
      rw [max_eq_right (le_of_not_le h)]
      · show (y :: t).getD (listArgmax (y :: t)) 0 = listMax (y :: t)
        exact getD_listArgmax (y :: t) (by simp)

/-- C1: for every input collection of boxes and thresholds, the suppressor
returns an ordered sequence of at most `max_detections` detections, sorted by
descending confidence, in which no two surviving detections of the same
class have IoU greater than `iou_thresh`; and in the concrete scenario with
`max_detections = 1` and two non-overlapping above-threshold boxes of
confidences 0.9 and 0.95, exactly the 0.95-confidence box is returned. -/
theorem C1_nms_contract :
    (∀ (iouT scoreT : ℚ) (maxDet nC : ℕ) (l : List (Det ℚ)),
      (nms iouT scoreT maxDet nC l).Sorted detGE ∧
      (nms iouT scoreT maxDet nC l).length ≤ maxDet ∧
      (nms iouT scoreT maxDet nC l).Pairwise
        fun a b => a.cls = b.cls → ¬ iouT < iou a.box b.box) ∧
    nms (1/2 : ℚ) (1/2) 1 1 [detLow, detHigh] = [detHigh] := by
  constructor
  · intro iouT scoreT maxDet nC l
    refine ⟨nms_sorted iouT scoreT maxDet nC l, nms_length_le iouT scoreT maxDet nC l, ?_⟩
    exact (nms_pairwise iouT scoreT maxDet nC l).imp fun h => fun hc => not_lt.mpr (h hc)
  · norm_num [nms, nmsClass, greedy, greedyAux, sortDets, List.insertionSort,
      List.orderedInsert, detGE, iou, area, detLow, detHigh, boxLow, boxHigh, List.filter,
      List.range_succ, List.range_zero, List.flatMap_cons, List.flatMap_nil]

/-- C4: the IoU used by suppression is symmetric, is 1 on any well-formed box
of positive area paired with itself, always lies in [0, 1], and is 0 when
both boxes have zero area. -/
theorem C4_iou_properties (A B : Box ℚ) :
    iou A B = iou B A ∧ 0 ≤ iou A B ∧ iou A B ≤ 1 ∧
    (area A = 0 → area B = 0 → iou A B = 0) ∧
    (A.xMin ≤ A.xMax → A.yMin ≤ A.yMax → 0 < area A → iou A A = 1) :=
  ⟨iou_comm A B, iou_nonneg A B, iou_le_one A B, iou_zero_of_areas_zero A B,
    fun hx hy hpos => iou_self A hx hy hpos⟩

/-- Witness for C4 at the concrete boxes of the §8 scenarios. -/
theorem C4_iou_properties_witness :
    iou boxUnit boxTall = iou boxTall boxUnit ∧ 0 ≤ iou boxUnit boxTall ∧
      iou boxUnit boxTall ≤ 1 ∧ iou boxUnit boxUnit = 1 := by
  have h := C4_iou_properties boxUnit boxTall
  have h' := C4_iou_properties boxUnit boxUnit
  refine ⟨h.1, h.2.1, h.2.2.1, h'.2.2.2.2 ?_ ?_ ?_⟩
  · norm_num [boxUnit]
  · norm_num [boxUnit]
  · norm_num [area, boxUnit]

/-- C5: the suppressor is idempotent — applied to its own output with the
same score threshold, IoU threshold and detection cap it yields exactly the
same set of detections. -/
theorem C5_nms_idempotent (iouT scoreT : ℚ) (maxDet nC : ℕ) (l : List (Det ℚ)) :
    (nms iouT scoreT maxDet nC (nms iouT scoreT maxDet nC l)).Perm
      (nms iouT scoreT maxDet nC l) :=
  nms_idem_perm iouT scoreT maxDet nC l

/-- C6: suppression is class-isolated — the per-class stage only ever looks
at boxes of its own class, so a box of one class is never suppressed because
of a box of another class; in the concrete scenario, two boxes of different
classes with confidences 0.9 and 0.8 and IoU 0.99 both survive at IoU
threshold 0.5. -/
theorem C6_class_isolation :
    (∀ (iouT scoreT : ℚ) (c : ℕ) (l : List (Det ℚ)),
      nmsClass iouT scoreT c l =
        nmsClass iouT scoreT c (l.filter fun d => decide (d.cls = c))) ∧
    iou detClassA.box detClassB.box = 99/100 ∧
    nms (1/2 : ℚ) (1/2) 100 2 [detClassA, detClassB] = [detClassA, detClassB] := by
  refine ⟨fun iouT scoreT c l => nmsClass_filter_self iouT scoreT c l, ?_, ?_⟩
  · norm_num [iou, area, detClassA, detClassB, boxUnit, boxTall]
  · norm_num [nms, nmsClass, greedy, greedyAux, sortDets, List.insertionSort,
      List.orderedInsert, detGE, iou, area, detClassA, detClassB, boxUnit, boxTall,
      List.filter, List.range_succ, List.range_zero, List.flatMap_cons, List.flatMap_nil,
      List.flatMap_append]

/-- C10: the detection head's final convolution produces `len(masks[i]) *
(classes + 5)` channels per grid cell, and `YoloOutput`'s reshape splits them
into `len(masks[i])` per-anchor attribute vectors of exactly `classes + 5`
components each. -/
theorem C10_yolo_output_shape {β : Type} (masks : List (List ℕ)) (classes i : ℕ)
    (v : List β) (h : v.length = yoloV3OutputChannels masks classes i) :
    (yoloOutputReshape (masks.getD i []).length classes v).length =
      (masks.getD i []).length ∧
    ∀ w ∈ yoloOutputReshape (masks.getD i []).length classes v,
      w.length = classes + 5 := by
  constructor
  · simp [yoloOutputReshape]
  · intro w hw
    rcases List.mem_map.mp hw with ⟨a, ha, hwa⟩
    have ha' : a < (masks.getD i []).length := List.mem_range.mp ha
    rw [← hwa, List.length_take, List.length_drop, h]
    unfold yoloV3OutputChannels yoloDetectionsFilters
    apply min_eq_left
    rw [← Nat.sub_mul]
    calc classes + 5 = 1 * (classes + 5) := (one_mul _).symm
    _ ≤ ((masks.getD i []).length - a) * (classes + 5) :=
        Nat.mul_le_mul_right _ (Nat.le_sub_of_add_le (by omega))

/-- Witness for C10 with the standard YOLOv3 masks, one class, scale 0 and a
flat channel vector of length 3 * (1 + 5) = 18. -/
theorem C10_yolo_output_shape_witness :
    (yoloOutputReshape (([[6,7,8],[3,4,5],[0,1,2]] : List (List ℕ)).getD 0 []).length 1
      (List.replicate 18 (0 : ℕ))).length =
      (([[6,7,8],[3,4,5],[0,1,2]] : List (List ℕ)).getD 0 []).length ∧
    ∀ w ∈ yoloOutputReshape (([[6,7,8],[3,4,5],[0,1,2]] : List (List ℕ)).getD 0 []).length 1
      (List.replicate 18 (0 : ℕ)), w.length = 1 + 5 :=
  C10_yolo_output_shape [[6,7,8],[3,4,5],[0,1,2]] 1 0 (List.replicate 18 0) (by decide)

theorem exp_21_lt_big : Real.exp 21 < 10 ^ 10 := by
  have h1 : Real.exp 1 ^ 21 = Real.exp 21 := by
    rw [Real.exp_one_pow]
    norm_num
  rw [← h1]
  calc Real.exp 1 ^ 21 < 2.7182818286 ^ 21 := by
        apply pow_lt_pow_left₀ Real.exp_one_lt_d9 (Real.exp_pos 1).le
        norm_num
  _ < 10 ^ 10 := by norm_num

/-- C2 as stated is false on the modelled decoder: §4.1's failure policy
clamps the size logits to [−20, 20] before exponentiating, so at `tw = 21`
the decoded right edge disagrees with the unclamped reference formula
`w = aw · exp(tw) / input_width` of the claim. -/
theorem C2_decode_counterexample :
    (decodeCell 1 1 0 0 1 1 (10 ^ 10) (10 ^ 10) overflowCell).xMax ≠
      clamp01 ((sigmoid overflowCell.tx + (0 : ℕ)) / ((1 : ℕ) : ℝ) +
        1 * Real.exp overflowCell.tw / 10 ^ 10 / 2) := by
  have hcl : clampI (-20) 20 (21 : ℝ) = 20 := by
    unfold clampI
    rw [min_eq_left (by norm_num), max_eq_right (by norm_num)]
  have h2021 : Real.exp 20 < Real.exp 21 := Real.exp_lt_exp.mpr (by norm_num)
  have h21 : Real.exp 21 < 10 ^ 10 := exp_21_lt_big
  have hpos20 := Real.exp_pos (20 : ℝ)
  have hpos21 := Real.exp_pos (21 : ℝ)
  have hlhs : (decodeCell 1 1 0 0 1 1 (10 ^ 10) (10 ^ 10) overflowCell).xMax =
      1 / 2 + Real.exp 20 / 10 ^ 10 / 2 := by
    show clamp01 ((sigmoid overflowCell.tx + ((0 : ℕ) : ℝ)) / ((1 : ℕ) : ℝ) +
      1 * Real.exp (clampI (-20) 20 overflowCell.tw) / 10 ^ 10 / 2) = _
    rw [show overflowCell.tx = 0 from rfl, show overflowCell.tw = 21 from rfl,
      hcl, sigmoid_zero]
    rw [clamp01_of_mem (by positivity) (by norm_num; nlinarith)]
    norm_num
  have hrhs : clamp01 ((sigmoid overflowCell.tx + (0 : ℕ)) / ((1 : ℕ) : ℝ) +
      1 * Real.exp overflowCell.tw / 10 ^ 10 / 2) =
      1 / 2 + Real.exp 21 / 10 ^ 10 / 2 := by
    rw [show overflowCell.tx = 0 from rfl, show overflowCell.tw = 21 from rfl, sigmoid_zero]
    rw [clamp01_of_mem (by positivity) (by norm_num; nlinarith)]
    norm_num
  rw [hlhs, hrhs]
  intro heq
  have : Real.exp 20 = Real.exp 21 := by
    field_simp at heq
    linarith
  exact absurd this h2021.ne

/-- C2 (amended): for size logits inside the clamp range [−20, 20] of §4.1's
failure policy, the decoded output agrees with the reference decode of §4.1
steps 1-6 — sigmoid-offset centers scaled into the grid, exponential anchor
scaling normalized by the input size, corners clamped to [0, 1],
objectness-gated class scores, and confidence equal to the maximal class
score with its argmax as class id; the 1×1-grid scenario with zero logits,
anchor (100, 100) and input 200×200 decodes to (0.25, 0.25, 0.75, 0.75). -/
theorem C2_decode_reference (gridRows gridCols r c : ℕ) (aw ah iw ih : ℝ)
    (cell : RawCell)
    (htw1 : -20 ≤ cell.tw) (htw2 : cell.tw ≤ 20)
    (hth1 : -20 ≤ cell.th) (hth2 : cell.th ≤ 20) :
    (decodeCell gridRows gridCols r c aw ah iw ih cell).xMin =
      clamp01 ((sigmoid cell.tx + c) / gridCols - aw * Real.exp cell.tw / iw / 2) ∧
    (decodeCell gridRows gridCols r c aw ah iw ih cell).yMin =
      clamp01 ((sigmoid cell.ty + r) / gridRows - ah * Real.exp cell.th / ih / 2) ∧
    (decodeCell gridRows gridCols r c aw ah iw ih cell).xMax =
      clamp01 ((sigmoid cell.tx + c) / gridCols + aw * Real.exp cell.tw / iw / 2) ∧
    (decodeCell gridRows gridCols r c aw ah iw ih cell).yMax =
      clamp01 ((sigmoid cell.ty + r) / gridRows + ah * Real.exp cell.th / ih / 2) ∧
    (decodeCell gridRows gridCols r c aw ah iw ih cell).classScores =
      cell.classLogits.map (fun z => sigmoid cell.obj * sigmoid z) ∧
    (decodeCell gridRows gridCols r c aw ah iw ih cell).conf =
      listMax (decodeCell gridRows gridCols r c aw ah iw ih cell).classScores ∧
    (cell.classLogits ≠ [] →
      (decodeCell gridRows gridCols r c aw ah iw ih cell).conf ∈
        (decodeCell gridRows gridCols r c aw ah iw ih cell).classScores ∧
      (∀ s ∈ (decodeCell gridRows gridCols r c aw ah iw ih cell).classScores,
        s ≤ (decodeCell gridRows gridCols r c aw ah iw ih cell).conf) ∧
      (decodeCell gridRows gridCols r c aw ah iw ih cell).classScores.getD
        (decodeCell gridRows gridCols r c aw ah iw ih cell).classId 0 =
        (decodeCell gridRows gridCols r c aw ah iw ih cell).conf) ∧
    ((decodeCell 1 1 0 0 100 100 200 200 centeredCell).xMin = 1 / 4 ∧
      (decodeCell 1 1 0 0 100 100 200 200 centeredCell).yMin = 1 / 4 ∧
      (decodeCell 1 1 0 0 100 100 200 200 centeredCell).xMax = 3 / 4 ∧
      (decodeCell 1 1 0 0 100 100 200 200 centeredCell).yMax = 3 / 4) := by
  have hclw : clampI (-20) 20 cell.tw = cell.tw := clampI_of_mem htw1 htw2
  have hclh : clampI (-20) 20 cell.th = cell.th := clampI_of_mem hth1 hth2
  have hcl0 : clampI (-20) 20 (0 : ℝ) = 0 := clampI_of_mem (by norm_num) (by norm_num)
  have hscene : ∀ q : ℝ, q = (sigmoid (0:ℝ) + ((0:ℕ):ℝ)) / ((1:ℕ):ℝ) →
      clamp01 (q - 100 * Real.exp (clampI (-20) 20 (0:ℝ)) / 200 / 2) = 1 / 4 ∧
      clamp01 (q + 100 * Real.exp (clampI (-20) 20 (0:ℝ)) / 200 / 2) = 3 / 4 := by
    intro q hq
    rw [hq, hcl0, Real.exp_zero, sigmoid_zero]
    norm_num
    constructor
    · rw [clamp01_of_mem (by norm_num) (by norm_num)]
    · rw [clamp01_of_mem (by norm_num) (by norm_num)]
  have hne : ∀ h : cell.classLogits ≠ [],
      (cell.classLogits.map fun z => sigmoid cell.obj * sigmoid z) ≠ [] := by
    intro h hmap
    exact h (List.map_eq_nil_iff.mp hmap)
  refine ⟨by simp [decodeCell, hclw], by simp [decodeCell, hclh],
    by simp [decodeCell, hclw], by simp [decodeCell, hclh], rfl, rfl, ?_, ?_⟩
  · intro h
    refine ⟨listMax_mem _ (hne h), fun s hs => listMax_ge _ s hs, ?_⟩
    exact getD_listArgmax _ (hne h)
  · have h1 := (hscene _ rfl).1
    have h2 := (hscene _ rfl).2
    refine ⟨?_, ?_, ?_, ?_⟩
    · show clamp01 ((sigmoid centeredCell.tx + ((0:ℕ):ℝ)) / ((1:ℕ):ℝ) -
        100 * Real.exp (clampI (-20) 20 centeredCell.tw) / 200 / 2) = 1 / 4
      rw [show centeredCell.tx = 0 from rfl, show centeredCell.tw = 0 from rfl]
      exact h1
    · show clamp01 ((sigmoid centeredCell.ty + ((0:ℕ):ℝ)) / ((1:ℕ):ℝ) -
        100 * Real.exp (clampI (-20) 20 centeredCell.th) / 200 / 2) = 1 / 4
      rw [show centeredCell.ty = 0 from rfl, show centeredCell.th = 0 from rfl]
      exact h1
    · show clamp01 ((sigmoid centeredCell.tx + ((0:ℕ):ℝ)) / ((1:ℕ):ℝ) +
        100 * Real.exp (clampI (-20) 20 centeredCell.tw) / 200 / 2) = 3 / 4
      rw [show centeredCell.tx = 0 from rfl, show centeredCell.tw = 0 from rfl]
      exact h2
    · show clamp01 ((sigmoid centeredCell.ty + ((0:ℕ):ℝ)) / ((1:ℕ):ℝ) +
        100 * Real.exp (clampI (-20) 20 centeredCell.th) / 200 / 2) = 3 / 4
      rw [show centeredCell.ty = 0 from rfl, show centeredCell.th = 0 from rfl]
      exact h2

/-- Witness for C2 at the §8 scenario: zero logits lie inside the clamp
range, and the decoded corners are (0.25, 0.25, 0.75, 0.75). -/
theorem C2_decode_reference_witness :
    (decodeCell 1 1 0 0 100 100 200 200 centeredCell).xMin = 1 / 4 ∧
    (decodeCell 1 1 0 0 100 100 200 200 centeredCell).yMin = 1 / 4 ∧
    (decodeCell 1 1 0 0 100 100 200 200 centeredCell).xMax = 3 / 4 ∧
    (decodeCell 1 1 0 0 100 100 200 200 centeredCell).yMax = 3 / 4 :=
  (C2_decode_reference 1 1 0 0 100 100 200 200 centeredCell
    (by norm_num [centeredCell]) (by norm_num [centeredCell])
    (by norm_num [centeredCell]) (by norm_num [centeredCell])).2.2.2.2.2.2.2

/-- C3: for every raw input, every decoded box has corners clamped into
[0, 1] with ordered edges, given the (construction-time) nonnegative anchor
sizes and positive input dimensions. -/
theorem C3_decoded_box_valid (gridRows gridCols r c : ℕ) (aw ah iw ih : ℝ)
    (cell : RawCell) (haw : 0 ≤ aw) (hah : 0 ≤ ah) (hiw : 0 < iw) (hih : 0 < ih) :
    0 ≤ (decodeCell gridRows gridCols r c aw ah iw ih cell).xMin ∧
    (decodeCell gridRows gridCols r c aw ah iw ih cell).xMin ≤
      (decodeCell gridRows gridCols r c aw ah iw ih cell).xMax ∧
    (decodeCell gridRows gridCols r c aw ah iw ih cell).xMax ≤ 1 ∧
    0 ≤ (decodeCell gridRows gridCols r c aw ah iw ih cell).yMin ∧
    (decodeCell gridRows gridCols r c aw ah iw ih cell).yMin ≤
      (decodeCell gridRows gridCols r c aw ah iw ih cell).yMax ∧
    (decodeCell gridRows gridCols r c aw ah iw ih cell).yMax ≤ 1 := by
  have hw : 0 ≤ aw * Real.exp (clampI (-20) 20 cell.tw) / iw :=
    div_nonneg (mul_nonneg haw (Real.exp_pos _).le) hiw.le
  have hh : 0 ≤ ah * Real.exp (clampI (-20) 20 cell.th) / ih :=
    div_nonneg (mul_nonneg hah (Real.exp_pos _).le) hih.le
  refine ⟨clamp01_nonneg _, ?_, clamp01_le_one _, clamp01_nonneg _, ?_, clamp01_le_one _⟩
  · exact clamp01_mono (by linarith)
  · exact clamp01_mono (by linarith)

/-- Witness for C3 at the §8 scenario anchors and input size. -/
theorem C3_decoded_box_valid_witness :
    0 ≤ (decodeCell 1 1 0 0 100 100 200 200 centeredCell).xMin ∧
    (decodeCell 1 1 0 0 100 100 200 200 centeredCell).xMin ≤
      (decodeCell 1 1 0 0 100 100 200 200 centeredCell).xMax ∧
    (decodeCell 1 1 0 0 100 100 200 200 centeredCell).xMax ≤ 1 ∧
    0 ≤ (decodeCell 1 1 0 0 100 100 200 200 centeredCell).yMin ∧
    (decodeCell 1 1 0 0 100 100 200 200 centeredCell).yMin ≤
      (decodeCell 1 1 0 0 100 100 200 200 centeredCell).yMax ∧
    (decodeCell 1 1 0 0 100 100 200 200 centeredCell).yMax ≤ 1 :=
  C3_decoded_box_valid 1 1 0 0 100 100 200 200 centeredCell
    (by norm_num) (by norm_num) (by norm_num) (by norm_num)

/-- C8: the decoder clamps the size logits to [−20, 20] before
exponentiating; the decoded width and height factors are therefore finite,
nonnegative, and bounded by their value at logit 20, and the clamped decode
is total — out-of-range logits are recovered locally, never surfaced as an
error. -/
theorem C8_size_clamped (gridRows gridCols r c : ℕ) (aw ah iw ih : ℝ)
    (cell : RawCell) (haw : 0 ≤ aw) (hah : 0 ≤ ah) (hiw : 0 < iw) (hih : 0 < ih) :
    (-20 ≤ clampI (-20) 20 cell.tw ∧ clampI (-20) 20 cell.tw ≤ 20 ∧
      -20 ≤ clampI (-20) 20 cell.th ∧ clampI (-20) 20 cell.th ≤ 20) ∧
    (decodeCell gridRows gridCols r c aw ah iw ih cell).xMax =
      clamp01 ((sigmoid cell.tx + c) / gridCols +
        aw * Real.exp (clampI (-20) 20 cell.tw) / iw / 2) ∧
    (decodeCell gridRows gridCols r c aw ah iw ih cell).yMax =
      clamp01 ((sigmoid cell.ty + r) / gridRows +
        ah * Real.exp (clampI (-20) 20 cell.th) / ih / 2) ∧
    0 ≤ aw * Real.exp (clampI (-20) 20 cell.tw) / iw ∧
    aw * Real.exp (clampI (-20) 20 cell.tw) / iw ≤ aw * Real.exp 20 / iw ∧
    0 ≤ ah * Real.exp (clampI (-20) 20 cell.th) / ih ∧
    ah * Real.exp (clampI (-20) 20 cell.th) / ih ≤ ah * Real.exp 20 / ih := by
  have hexpw : Real.exp (clampI (-20) 20 cell.tw) ≤ Real.exp 20 :=
    Real.exp_le_exp.mpr (clampI_le (by norm_num) _)
  have hexph : Real.exp (clampI (-20) 20 cell.th) ≤ Real.exp 20 :=
    Real.exp_le_exp.mpr (clampI_le (by norm_num) _)
  refine ⟨⟨le_clampI _ _ _, clampI_le (by norm_num) _,
    le_clampI _ _ _, clampI_le (by norm_num) _⟩, rfl, rfl, ?_, ?_, ?_, ?_⟩
  · exact div_nonneg (mul_nonneg haw (Real.exp_pos _).le) hiw.le
  · exact div_le_div_of_nonneg_right
      (mul_le_mul_of_nonneg_left hexpw haw) hiw.le |>.trans_eq rfl
  · exact div_nonneg (mul_nonneg hah (Real.exp_pos _).le) hih.le
  · exact div_le_div_of_nonneg_right
      (mul_le_mul_of_nonneg_left hexph hah) hih.le |>.trans_eq rfl

/-- Witness for C8 at an out-of-range width logit (21): the clamped width
factor is nonnegative and bounded by its value at logit 20. -/
theorem C8_size_clamped_witness :
    0 ≤ 1 * Real.exp (clampI (-20) 20 overflowCell.tw) / 10 ^ 10 ∧
    1 * Real.exp (clampI (-20) 20 overflowCell.tw) / 10 ^ 10 ≤
      1 * Real.exp 20 / 10 ^ 10 :=
  ⟨(C8_size_clamped 1 1 0 0 1 1 (10 ^ 10) (10 ^ 10) overflowCell
      (by norm_num) (by norm_num) (by norm_num) (by norm_num)).2.2.2.1,
    (C8_size_clamped 1 1 0 0 1 1 (10 ^ 10) (10 ^ 10) overflowCell
      (by norm_num) (by norm_num) (by norm_num) (by norm_num)).2.2.2.2.1⟩

/-- C7: the pipeline is deterministic — equal configurations, anchors and raw
tensors give identical outputs — the three scales are aggregated in the
fixed order large, medium, small, and each scale is decoded in raster order:
row-major over grid cells, then anchor index. -/
theorem C7_pipeline_deterministic (cfg cfg' : Config)
    (aL aL' aM aM' aS aS' : List (ℝ × ℝ)) (rL rL' rM rM' rS rS' : RawScale)
    (h1 : cfg = cfg') (h2 : aL = aL') (h3 : aM = aM') (h4 : aS = aS')
    (h5 : rL = rL') (h6 : rM = rM') (h7 : rS = rS') :
    run cfg aL aM aS rL rM rS = run cfg' aL' aM' aS' rL' rM' rS' ∧
    aggregate cfg aL aM aS rL rM rS =
      decodeScale cfg.inputWidth cfg.inputHeight aL rL ++
        decodeScale cfg.inputWidth cfg.inputHeight aM rM ++
        decodeScale cfg.inputWidth cfg.inputHeight aS rS ∧
    decodeScale cfg.inputWidth cfg.inputHeight aL rL =
      ((List.range rL.gridRows).flatMap fun r =>
        (List.range rL.gridCols).flatMap fun c =>
          (List.range rL.numAnchors).map fun a =>
            decodeCell rL.gridRows rL.gridCols r c (aL.getD a (0, 0)).1
              (aL.getD a (0, 0)).2 cfg.inputWidth cfg.inputHeight
              (attrToCell (((rL.data.getD r []).getD c []).getD a []))) := by
  subst h1 h2 h3 h4 h5 h6 h7
  exact ⟨rfl, rfl, rfl⟩

/-- Witness for C7 at a concrete 1×1-grid run repeated with syntactically
identical inputs. -/
theorem C7_pipeline_deterministic_witness :
    run sampleConfig [((100 : ℝ), (100 : ℝ))] [((100 : ℝ), (100 : ℝ))]
        [((100 : ℝ), (100 : ℝ))] tinyScale tinyScale tinyScale =
      run sampleConfig [((100 : ℝ), (100 : ℝ))] [((100 : ℝ), (100 : ℝ))]
        [((100 : ℝ), (100 : ℝ))] tinyScale tinyScale tinyScale :=
  (C7_pipeline_deterministic sampleConfig sampleConfig _ _ _ _ _ _
    tinyScale tinyScale tinyScale tinyScale tinyScale tinyScale
    rfl rfl rfl rfl rfl rfl rfl).1

/-- C9: the pipeline fails exactly when the raw tensor dimensions are
inconsistent with the declared anchor/grid geometry, with the descriptive
MalformedInput message, before any decoding happens; on consistent inputs it
returns detections, and this is its only error. -/
theorem C9_malformed_input (cfg : Config) (aL aM aS : List (ℝ × ℝ))
    (rL rM rS : RawScale) :
    ((checkDims rL && checkDims rM && checkDims rS) = true →
      ∃ dets, run cfg aL aM aS rL rM rS = Except.ok dets) ∧
    ((checkDims rL && checkDims rM && checkDims rS) = false →
      run cfg aL aM aS rL rM rS = Except.error
        "MalformedInput: raw tensor dimensions inconsistent with declared anchor/grid sizes") ∧
    (∀ e, run cfg aL aM aS rL rM rS = Except.error e →
      (checkDims rL && checkDims rM && checkDims rS) = false ∧
      e = "MalformedInput: raw tensor dimensions inconsistent with declared anchor/grid sizes") := by
  cases hc : (checkDims rL && checkDims rM && checkDims rS) with
  | true =>
    refine ⟨fun _ => ⟨nms cfg.iouThresh cfg.scoreThresh cfg.maxDetections rL.numClasses
        ((aggregate cfg aL aM aS rL rM rS).map toDet), ?_⟩,
      fun hfalse => by simp at hfalse, fun e he => ?_⟩
    · unfold run
      rw [if_pos hc]
    · unfold run at he
      rw [if_pos hc] at he
      exact absurd he (by simp)
  | false =>
    have hrun : run cfg aL aM aS rL rM rS = Except.error
        "MalformedInput: raw tensor dimensions inconsistent with declared anchor/grid sizes" := by
      unfold run
      rw [if_neg (by simp [hc])]
    refine ⟨fun htrue => by simp at htrue, fun _ => hrun, fun e he => ?_⟩
    rw [hrun] at he
    refine ⟨rfl, ?_⟩
    cases he
    rfl

/-- Witness for C9: a declared 1×1 grid whose data holds no rows is rejected
with the MalformedInput error. -/
theorem C9_malformed_input_witness :
    run sampleConfig [] [] [] badScale badScale badScale = Except.error
      "MalformedInput: raw tensor dimensions inconsistent with declared anchor/grid sizes" :=
  (C9_malformed_input sampleConfig [] [] [] badScale badScale badScale).2.1 (by decide)

end Yolo
